import Mathlib

/-!
Verification development for the on-demand dependency/declaration resolver of
the Monaco editor plugin (the recursive source graph loader, alias resolver,
declaration-directory crawler, package type loader and registered file corpus).

The JavaScript source is shallowly embedded: strings are Lean `String`s
(operated on through their `data` character lists, mirroring the UTF-16
code-unit view of the source for the ASCII inputs considered here), the
asynchronous restricted filesystem API is a record of pure functions where a
`none`/`Option` result models a thrown I/O error that the source catches, and
the mutable session state (loaded-file set, Monaco extra-lib calls) is threaded
explicitly.  Recursion that the source bounds with a depth counter is made
structural with a fuel argument equal to the exact number of remaining levels
the depth guard permits, so every function is executable and total.
-/

set_option maxRecDepth 8000

/-- Characters used by the embedded path/regex code. -/
def slashChar : Char := ('/')

def dotChar : Char := ('.')

def starChar : Char := ('*')

/-- JS `\s` whitespace class (ASCII part; the inputs considered are ASCII). -/
def isJsSpace (c : Char) : Bool :=
  c == (' ') || c == ('\t') || c == ('\n') || c == ('\r') || c == ('\x0b') || c == ('\x0c')

/-- JS `\w` word-character class `[A-Za-z0-9_]`. -/
def isWordChar (c : Char) : Bool :=
  c.isAlpha || c.isDigit || c == ('_')

/-- JS quote class `['"]` used by the import regex. -/
def isQuote (c : Char) : Bool :=
  c == ('"') || c == Char.ofNat 39

/-- `s.startsWith(pre)` of JS. -/
def jsStartsWith (s pre : String) : Bool :=
  List.isPrefixOf pre.data s.data

/-- `s.endsWith(suf)` of JS. -/
def jsEndsWith (s suf : String) : Bool :=
  List.isSuffixOf suf.data s.data

/-- `s.length` of JS (UTF-16 code units; char count for the ASCII inputs used). -/
def strLen (s : String) : Nat :=
  s.data.length

/-- Split a character list at every occurrence of `sep`, JS `String.split` style:
the empty string splits to `[""]` and adjacent separators produce empty parts. -/
def splitChars (sep : Char) : List Char → List (List Char)
  | [] => [[]]
  | c :: cs =>
    match splitChars sep cs with
    | h :: t => if c = sep then [] :: h :: t else (c :: h) :: t
    | [] => [[c]]

/-- JS `s.split(sep)` for a one-character separator. -/
def jsSplit (sep : Char) (s : String) : List String :=
  (splitChars sep s.data).map String.mk

/-- JS `parts.join(sep)`. -/
def jsJoin (sep : String) : List String → String
  | [] => ("")
  | [x] => x
  | x :: y :: rest => x ++ sep ++ jsJoin sep (y :: rest)

/-! ## The import-specifier regex

The source scans file content with

  `/(?:import|export)\s+(?:(?:\{[^}]*\}|\*\s+as\s+\w+|\w+)\s+from\s+)?['"]([^'"]+)['"]/g`

executed in a `while (exec !== null)` loop.  The matcher below implements this
pattern directly.  All greedy sub-patterns here are followed by tokens from
disjoint character classes, so maximal munch coincides with backtracking
semantics; the three alternatives of the optional clause begin with the
mutually exclusive characters `{`, `*` and a word character. -/

/-- Match a literal character sequence, returning the remainder. -/
def dropLit : List Char → List Char → Option (List Char)
  | [], s => some s
  | _ :: _, [] => none
  | l :: ls, c :: cs => if c = l then dropLit ls cs else none

/-- `\s+` (greedy, at least one). -/
def ws1 : List Char → Option (List Char)
  | [] => none
  | c :: cs => if isJsSpace c then some (cs.dropWhile isJsSpace) else none

/-- `\w+` (greedy, at least one). -/
def word1 : List Char → Option (List Char)
  | [] => none
  | c :: cs => if isWordChar c then some (cs.dropWhile isWordChar) else none

/-- `\{[^}]*\}`. -/
def bracesTok : List Char → Option (List Char)
  | [] => none
  | c :: cs =>
    if c = ('\x7b') then
      match cs.dropWhile (fun d => !(d == ('\x7d'))) with
      | d :: rest => if d = ('\x7d') then some rest else none
      | [] => none
    else none

/-- `\*\s+as\s+\w+`. -/
def starAsTok : List Char → Option (List Char)
  | [] => none
  | c :: cs =>
    if c = starChar then
      (ws1 cs).bind fun s1 => (dropLit [('a'), ('s')] s1).bind fun s2 => (ws1 s2).bind word1
    else none

/-- `\s+from\s+`. -/
def fromTail (s : List Char) : Option (List Char) :=
  (ws1 s).bind fun s1 => (dropLit [('f'), ('r'), ('o'), ('m')] s1).bind ws1

/-- The optional import clause `(?:\{[^}]*\}|\*\s+as\s+\w+|\w+)\s+from\s+`. -/
def clauseTok (s : List Char) : Option (List Char) :=
  match (bracesTok s).bind fromTail with
  | some r => some r
  | none =>
    match (starAsTok s).bind fromTail with
    | some r => some r
    | none => (word1 s).bind fromTail

/-- `['"]([^'"]+)['"]` — returns the captured specifier and the remainder. -/
def quotedCap : List Char → Option (List Char × List Char)
  | [] => none
  | c :: cs =>
    if isQuote c then
      match cs.span (fun d => !(isQuote d)) with
      | ([], _) => none
      | (cap, r :: rs) => if isQuote r then some (cap, rs) else none
      | (_, []) => none
    else none

/-- Try the whole pattern at the head of `s`; on success return the captured
specifier and the remainder after the match.  The optional clause backtracks to
the no-clause reading when the quoted part fails after it, as the regex does. -/
def matchImportAt (s : List Char) : Option (List Char × List Char) :=
  match (match dropLit [('i'), ('m'), ('p'), ('o'), ('r'), ('t')] s with
         | some r => some r
         | none => dropLit [('e'), ('x'), ('p'), ('o'), ('r'), ('t')] s) with
  | none => none
  | some s1 =>
    match ws1 s1 with
    | none => none
    | some s2 =>
      match (clauseTok s2).bind quotedCap with
      | some r => some r
      | none => quotedCap s2

/-- The `exec` loop: find matches left to right, continuing after each match.
Every successful match consumes at least ten characters, so fuel equal to the
input length never runs out. -/
def scanImportsAux : Nat → List Char → List (List Char)
  | 0, _ => []
  | _ + 1, [] => []
  | fuel + 1, c :: cs =>
    match matchImportAt (c :: cs) with
    | some (cap, rest) => cap :: scanImportsAux fuel rest
    | none => scanImportsAux fuel cs

/-- All specifiers the source regex extracts from `content`, in text order. -/
def extractImports (content : String) : List String :=
  (scanImportsAux content.data.length content.data).map String.mk

/-! ## Session state and the registered file corpus

`loadedFiles` is the JS `Set<string>` in insertion order; `tsExtraLibs` and
`jsExtraLibs` record, in call order, the `(uri, content)` arguments of the
`addExtraLib` calls made on `typescriptDefaults` and `javascriptDefaults`;
`packageTypeRequests` records, in call order, the package names on which
`loadPackageTypes` is invoked (its observable "routing" log). -/

structure MonacoState where
  loadedFiles : List String
  tsExtraLibs : List (String × String)
  jsExtraLibs : List (String × String)
  packageTypeRequests : List String
  deriving Repr, DecidableEq

def emptyState : MonacoState :=
  { loadedFiles := [], tsExtraLibs := [], jsExtraLibs := [], packageTypeRequests := [] }

/-- The uri `file:///${filePath}` built by `addFileToMonaco`. -/
def uriOf (filePath : String) : String :=
  ("file:///") ++ filePath

/-- `addFileToMonaco(filePath, content)`: the single corpus-register operation.
If the path is already loaded, return with no effect; otherwise record the path
and perform the two `addExtraLib` engine-feeding calls. -/
def addFileToMonaco (filePath content : String) (st : MonacoState) : MonacoState :=
  if filePath ∈ st.loadedFiles then st
  else
    { loadedFiles := st.loadedFiles ++ [filePath]
      tsExtraLibs := st.tsExtraLibs ++ [(uriOf filePath, content)]
      jsExtraLibs := st.jsExtraLibs ++ [(uriOf filePath, content)]
      packageTypeRequests := st.packageTypeRequests }

/-! ## Filesystem boundary

The restricted `window.gitton.fs` API plus the one platform helper the package
type loader uses.  A `none` from `readFile`/`readdir` models a thrown I/O
error (the source catches these).  `parseManifestTypes` abstracts
`JSON.parse(pkgJsonContent).types || .typings` of the platform JSON parser
applied to a manifest text (`none` models both a parse throw and an absent
field). -/

structure DirEntry where
  name : String
  isDirectory : Bool
  deriving Repr, DecidableEq

structure FS where
  fsExists : String → Bool
  readFile : String → Option String
  readdir : String → Option (List DirEntry)
  parseManifestTypes : String → Option String

/-- The tsconfig-derived alias state: `tsconfigPaths` as an ordered table
(JS object insertion order) and `tsconfigBaseUrl` (default `"."`). -/
structure TsPathsConfig where
  paths : List (String × List String)
  baseUrl : String

def cfgDefault : TsPathsConfig :=
  { paths := [], baseUrl := (".") }

/-! ## Alias resolution (`resolvePathAlias`)

The source turns each alias pattern into the regex `^pre(.*)suf$` where
`pre`/`suf` are the escaped parts around the **first** `*` of the pattern
(`String.replace` with a string argument replaces only the first occurrence);
a pattern with no `*` becomes an exact-match regex with `match[1]` undefined,
i.e. an empty capture.  Each target has its first `*` replaced by the capture. -/

/-- Split a character list around its first `*`, if any. -/
def splitAtFirstStar : List Char → Option (List Char × List Char)
  | [] => none
  | c :: cs =>
    if c = starChar then some ([], cs)
    else
      match splitAtFirstStar cs with
      | some (pre, suf) => some (c :: pre, suf)
      | none => none

/-- Match `importPath` against an alias pattern, returning the wildcard capture
(`match[1] || ''`). -/
def matchAliasPattern (pat importPath : String) : Option String :=
  match splitAtFirstStar pat.data with
  | none => if importPath = pat then some ("") else none
  | some (pre, suf) =>
    if List.isPrefixOf pre importPath.data then
      let rest := importPath.data.drop pre.length
      if List.isSuffixOf suf rest then
        some (String.mk (rest.take (rest.length - suf.length)))
      else none
    else none

/-- `target.replace('*', captured)` — first `*` only. -/
def replaceFirstStar (target captured : String) : String :=
  match splitAtFirstStar target.data with
  | none => target
  | some (pre, suf) => String.mk (pre ++ captured.data ++ suf)

/-- `fullPath.replace(/^\.\//, '')`. -/
def stripDotSlash (s : String) : String :=
  if List.isPrefixOf [dotChar, slashChar] s.data then String.mk (s.data.drop 2) else s

/-- `resolvePathAlias(importPath)` over the alias table in declaration order:
the first matching pattern is taken; its first target template is substituted,
joined with the (truthy) base url and stripped of a leading `./` and returned
immediately; a matching pattern with an empty target list falls through to the
next pattern (its inner loop body never runs). -/
def resolvePathAliasAux (baseUrl : String) : List (String × List String) → String → Option String
  | [], _ => none
  | (pat, targets) :: rest, importPath =>
    match matchAliasPattern pat importPath with
    | some captured =>
      match targets with
      | [] => resolvePathAliasAux baseUrl rest importPath
      | target :: _ =>
        let resolvedPath := replaceFirstStar target captured
        let fullPath := if baseUrl ≠ ("") then baseUrl ++ ("/") ++ resolvedPath else resolvedPath
        some (stripDotSlash fullPath)
    | none => resolvePathAliasAux baseUrl rest importPath

def resolvePathAlias (cfg : TsPathsConfig) (importPath : String) : Option String :=
  resolvePathAliasAux cfg.baseUrl cfg.paths importPath

/-! ## Path normalization used by `loadSourceFile` -/

/-- `${dir}/${importPath}`'s follow-up `.replace(/\/\.\//g, '/')`: global,
non-overlapping, left-to-right replacement of `/./` by `/`. -/
def replaceSlashDotSlash : List Char → List Char
  | [] => []
  | [c] => [c]
  | [c, d] => [c, d]
  | c :: d :: e :: rest =>
    if c = slashChar ∧ d = dotChar ∧ e = slashChar then
      slashChar :: replaceSlashDotSlash rest
    else c :: replaceSlashDotSlash (d :: e :: rest)

def replaceSDS (s : String) : String :=
  String.mk (replaceSlashDotSlash s.data)

/-- One step of the segment-stack reduce: `..` pops (a no-op on an empty
stack, as `Array.pop`), `.` is dropped, anything else is pushed. -/
def normalizeStep (acc : List String) (part : String) : List String :=
  if part = ("..") then acc.dropLast
  else if part = (".") then acc
  else acc ++ [part]

def normalizeSegs (s : String) : List String :=
  (jsSplit slashChar s).foldl normalizeStep []

/-- `resolvedPath.split('/').reduce(...).join('/')`. -/
def normalizePath (s : String) : String :=
  jsJoin ("/") (normalizeSegs s)

/-! ## Declaration directory crawler (`loadDtsFromDir`)

The source signature is `loadDtsFromDir(dirPath, maxDepth = 5, currentDepth = 0)`
with the guard `currentDepth > maxDepth`; recursion is made structural with
fuel `maxDepth + 1 - currentDepth`, the exact number of levels the guard still
permits (at fuel `0` the guard is true, so returning the state unchanged agrees
with the source). -/

/-- The per-entry body of the crawler's `for (const entry of entries)` loop:
hidden names are skipped, denylisted directories are skipped, other directories
are recursed into through `recurse`, and a `.d.ts` file is read and registered
only when its length is under `500 * 1024` (read failures are caught). -/
def loadDtsEntries (fs : FS) (recurse : String → MonacoState → MonacoState)
    (dirPath : String) : List DirEntry → MonacoState → MonacoState
  | [], st => st
  | e :: rest, st =>
    if jsStartsWith e.name (".") then loadDtsEntries fs recurse dirPath rest st
    else
      let fullPath := if dirPath ≠ ("") then dirPath ++ ("/") ++ e.name else e.name
      if e.isDirectory then
        if e.name = ("test") ∨ e.name = ("tests") ∨ e.name = ("__tests__") ∨
            e.name = ("examples") ∨ e.name = ("docs") ∨ e.name = (".git") then
          loadDtsEntries fs recurse dirPath rest st
        else loadDtsEntries fs recurse dirPath rest (recurse fullPath st)
      else if jsEndsWith e.name (".d.ts") then
        match fs.readFile fullPath with
        | some content =>
          if strLen content < 500 * 1024 then
            loadDtsEntries fs recurse dirPath rest (addFileToMonaco fullPath content st)
          else loadDtsEntries fs recurse dirPath rest st
        | none => loadDtsEntries fs recurse dirPath rest st
      else loadDtsEntries fs recurse dirPath rest st

def loadDtsFromDirF (fs : FS) (maxDepth : Nat) : Nat → Nat → String → MonacoState → MonacoState
  | 0, _, _, st => st
  | fuel + 1, currentDepth, dirPath, st =>
    if currentDepth > maxDepth then st
    else
      match fs.readdir dirPath with
      | none => st
      | some entries =>
        loadDtsEntries fs (fun d s => loadDtsFromDirF fs maxDepth fuel (currentDepth + 1) d s)
          dirPath entries st

/-- `loadDtsFromDir(dirPath, maxDepth, currentDepth)`. -/
def loadDtsFromDir (fs : FS) (dirPath : String) (maxDepth currentDepth : Nat)
    (st : MonacoState) : MonacoState :=
  loadDtsFromDirF fs maxDepth (maxDepth + 1 - currentDepth) currentDepth dirPath st

/-! ## Package type loader -/

/-- `loadPackageTypes(packageName)`.  The entry of the function is recorded in
`packageTypeRequests` so that theorems can observe which package names are ever
routed to this loader.  Manifest parsing is abstracted by
`fs.parseManifestTypes` (see `FS`); a manifest read throw, parse throw or
missing `types`/`typings` field all land in the source's empty `catch`. -/
def loadPackageTypes (fs : FS) (packageName : String) (st : MonacoState) : MonacoState :=
  let st := { st with packageTypeRequests := st.packageTypeRequests ++ [packageName] }
  let typesPath := ("node_modules/@types/") ++ packageName
  if fs.fsExists typesPath then loadDtsFromDir fs typesPath 3 0 st
  else
    let packagePath := ("node_modules/") ++ packageName
    if fs.fsExists packagePath then
      let st1 :=
        match fs.readFile (packagePath ++ ("/package.json")) with
        | none => st
        | some pkgJsonContent =>
          match fs.parseManifestTypes pkgJsonContent with
          | none => st
          | some typesFile =>
            let typesPath2 := packagePath ++ ("/") ++ typesFile
            if fs.fsExists typesPath2 then
              match fs.readFile typesPath2 with
              | some content => addFileToMonaco typesPath2 content st
              | none => st
            else st
      loadDtsFromDir fs packagePath 2 0 st1
    else st

def priorityPackages : List String :=
  [("react"), ("react-dom"), ("node"), ("react-router-dom"), ("react-i18next"),
   ("lucide-react"), ("sonner")]

/-- `loadAllNodeModulesTypes()`: the eager, session-start bulk load — a fixed
priority list first, then every directory under `node_modules/@types` not
already in the priority list.  It consumes no module specifiers. -/
def loadAllNodeModulesTypes (fs : FS) (st : MonacoState) : MonacoState :=
  let st1 := priorityPackages.foldl (fun s pkg => loadPackageTypes fs pkg s) st
  if fs.fsExists ("node_modules/@types") then
    match fs.readdir ("node_modules/@types") with
    | none => st1
    | some entries =>
      entries.foldl
        (fun s e =>
          if e.isDirectory && !(priorityPackages.contains e.name) then
            loadPackageTypes fs e.name s
          else s)
        st1
  else st1

/-! ## Recursive source graph loader (`loadSourceFile`) -/

/-- The probing order of candidate suffixes. -/
def extensions : List String :=
  [(""), (".ts"), (".tsx"), (".js"), (".jsx"),
   ("/index.ts"), ("/index.tsx"), ("/index.js"), ("/index.jsx")]

/-- The per-specifier body of the `while` loop over regex matches: specifiers
that start with neither `.`, `@/` nor `~/` are skipped (`continue` — node
module imports are handled separately by the eager loader); relative
specifiers are joined to the importing file's directory and cleaned of `/./`;
other specifiers go through `resolvePathAlias` (continuing on `null`); the
chosen path is segment-normalized and recursed into through `recLoad`. -/
def processImports (cfg : TsPathsConfig) (recLoad : String → MonacoState → MonacoState)
    (fullPath : String) : List String → MonacoState → MonacoState
  | [], st => st
  | imp :: rest, st =>
    if !(jsStartsWith imp (".")) && !(jsStartsWith imp ("@/")) && !(jsStartsWith imp ("~/")) then
      processImports cfg recLoad fullPath rest st
    else
      match (if jsStartsWith imp (".") then
               some (replaceSDS
                 ((jsJoin ("/") ((jsSplit slashChar fullPath).dropLast)) ++ ("/") ++ imp))
             else resolvePathAlias cfg imp) with
      | none => processImports cfg recLoad fullPath rest st
      | some resolvedPath =>
        processImports cfg recLoad fullPath rest (recLoad (normalizePath resolvedPath) st)

/-- The `for (const ext of extensions)` probe loop: on the first candidate that
exists and reads successfully, register it, process its imports and return;
a thrown `readFile` is caught and the next candidate is tried. -/
def tryCandidates (fs : FS) (cfg : TsPathsConfig) (recLoad : String → MonacoState → MonacoState)
    (filePath : String) : List String → MonacoState → MonacoState
  | [], st => st
  | ext :: rest, st =>
    let fullPath := filePath ++ ext
    if fs.fsExists fullPath then
      match fs.readFile fullPath with
      | some content =>
        processImports cfg recLoad fullPath (extractImports content)
          (addFileToMonaco fullPath content st)
      | none => tryCandidates fs cfg recLoad filePath rest st
    else tryCandidates fs cfg recLoad filePath rest st

/-- `loadSourceFile(filePath, depth)` with fuel equal to the number of levels
the `depth > 5` guard still permits; at fuel `0` the guard is true, so
returning the state unchanged agrees with the source. -/
def loadSourceFileF (fs : FS) (cfg : TsPathsConfig) : Nat → Nat → String → MonacoState → MonacoState
  | 0, _, _, st => st
  | fuel + 1, depth, filePath, st =>
    if depth > 5 then st
    else if filePath ∈ st.loadedFiles then st
    else
      tryCandidates fs cfg (fun q s => loadSourceFileF fs cfg fuel (depth + 1) q s)
        filePath extensions st

/-- `loadSourceFile(filePath, depth = 0)`. -/
def loadSourceFile (fs : FS) (cfg : TsPathsConfig) (filePath : String) (depth : Nat)
    (st : MonacoState) : MonacoState :=
  loadSourceFileF fs cfg (6 - depth) depth filePath st

/-! ## Concrete fixtures used by the claim theorems -/

/-- Cyclic project: `src/A.ts` imports `./B` and `src/B.ts` imports `./A`. -/
def fsCycle : FS where
  fsExists p := p == ("src/A.ts") || p == ("src/B.ts")
  readFile p :=
    if p = ("src/A.ts") then some ("import \"./B\"")
    else if p = ("src/B.ts") then some ("import \"./A\"")
    else none
  readdir _ := none
  parseManifestTypes _ := none

/-- A chain of seven nested relative imports `src/f0.ts → … → src/f6.ts`. -/
def fsChain : FS where
  fsExists p :=
    p == ("src/f0.ts") || p == ("src/f1.ts") || p == ("src/f2.ts") || p == ("src/f3.ts") ||
    p == ("src/f4.ts") || p == ("src/f5.ts") || p == ("src/f6.ts")
  readFile p :=
    if p = ("src/f0.ts") then some ("import \"./f1\"")
    else if p = ("src/f1.ts") then some ("import \"./f2\"")
    else if p = ("src/f2.ts") then some ("import \"./f3\"")
    else if p = ("src/f3.ts") then some ("import \"./f4\"")
    else if p = ("src/f4.ts") then some ("import \"./f5\"")
    else if p = ("src/f5.ts") then some ("import \"./f6\"")
    else if p = ("src/f6.ts") then some ("")
    else none
  readdir _ := none
  parseManifestTypes _ := none

/-- A project whose only source file imports the external package `lodash`. -/
def fsExternal : FS where
  fsExists p := p == ("src/a.ts")
  readFile p := if p = ("src/a.ts") then some ("import x from \"lodash\"") else none
  readdir _ := none
  parseManifestTypes _ := none

/-- Filesystem for the alias-target claim: only `lib/x` exists. -/
def fsLibOnly : FS where
  fsExists p := p == ("lib/x")
  readFile _ := none
  readdir _ := none
  parseManifestTypes _ := none

/-- `src/p.ts` exists but reading it throws; `src/p.tsx` exists and reads. -/
def fsFlaky : FS where
  fsExists p := p == ("src/p.ts") || p == ("src/p.tsx")
  readFile p := if p = ("src/p.tsx") then some ("") else none
  readdir _ := none
  parseManifestTypes _ := none

/-- A declaration file one byte below the size threshold. -/
def underSizedDts : String := String.mk (List.replicate (500 * 1024 - 1) ('x'))

/-- Directory `types` holding a single `.d.ts` file just under the threshold. -/
def fsDts : FS where
  fsExists p := p == ("types")
  readFile p := if p = ("types/a.d.ts") then some underSizedDts else none
  readdir p := if p = ("types") then some [{ name := ("a.d.ts"), isDirectory := false }] else none
  parseManifestTypes _ := none

/-- Small crawler fixture for the oversized-direction witness. -/
def fsDtsSmall : FS where
  fsExists p := p == ("d")
  readFile p := if p = ("d/b.d.ts") then some ("declare const b: number") else none
  readdir p := if p = ("d") then some [{ name := ("b.d.ts"), isDirectory := false }] else none
  parseManifestTypes _ := none

def dynamicText : String :=
  ("const a = require(\"mod1\")\nconst b = await import(\"mod2\")")

def staticText : String :=
  ("import x from \"a\"\nexport \x7b y \x7d from \"d\"\nimport(\"dyn\")\nrequire(\"req\")")

/-- The session invariant tying the corpus to the engine-feeding call logs:
the loaded-file set holds no duplicates, and each `addExtraLib` log contains
exactly the uris of the loaded files, in registration order.  It holds of the
empty session and is preserved by `addFileToMonaco` (the single mutation
point), which is how the "never called twice for the same uri" guarantee is
expressed. -/
def EngineInv (st : MonacoState) : Prop :=
  st.loadedFiles.Nodup ∧
  st.tsExtraLibs.map Prod.fst = st.loadedFiles.map uriOf ∧
  st.jsExtraLibs.map Prod.fst = st.loadedFiles.map uriOf

/-! ## Helper lemmas -/

theorem addFileToMonaco_packageTypeRequests (p c : String) (st : MonacoState) :
    (addFileToMonaco p c st).packageTypeRequests = st.packageTypeRequests := by
  unfold addFileToMonaco
  split <;> rfl

theorem mem_addFileToMonaco_iff (q p c : String) (st : MonacoState) :
    q ∈ (addFileToMonaco p c st).loadedFiles ↔ q ∈ st.loadedFiles ∨ q = p := by
  unfold addFileToMonaco
  split
  next h => exact ⟨fun hq => Or.inl hq, fun hq => hq.elim id (fun he => he ▸ h)⟩
  next h => simp [List.mem_append]

theorem addFileToMonaco_nodup (p c : String) (st : MonacoState)
    (h : st.loadedFiles.Nodup) : (addFileToMonaco p c st).loadedFiles.Nodup := by
  unfold addFileToMonaco
  split
  next hmem => exact h
  next hmem =>
    have h2 : ([p] ++ st.loadedFiles).Nodup := List.nodup_cons.mpr ⟨hmem, h⟩
    exact List.nodup_append_comm.mpr h2

theorem processImports_pres (cfg : TsPathsConfig) (recLoad : String → MonacoState → MonacoState)
    (fullPath : String) (P : MonacoState → Prop)
    (hrec : ∀ q s, P s → P (recLoad q s)) :
    ∀ (imports : List String) (st : MonacoState),
      P st → P (processImports cfg recLoad fullPath imports st) := by
  intro imports
  induction imports with
  | nil => intro st h; simpa only [processImports] using h
  | cons imp rest ih =>
    intro st h
    simp only [processImports]
    split
    · exact ih st h
    · split
      · exact ih st h
      · exact ih _ (hrec _ _ h)

theorem tryCandidates_pres (fs : FS) (cfg : TsPathsConfig)
    (recLoad : String → MonacoState → MonacoState) (filePath : String) (P : MonacoState → Prop)
    (hadd : ∀ p c s, fs.readFile p = some c → P s → P (addFileToMonaco p c s))
    (hrec : ∀ q s, P s → P (recLoad q s)) :
    ∀ (exts : List String) (st : MonacoState),
      P st → P (tryCandidates fs cfg recLoad filePath exts st) := by
  intro exts
  induction exts with
  | nil => intro st h; simpa only [tryCandidates] using h
  | cons e rest ih =>
    intro st h
    simp only [tryCandidates]
    split
    · cases hr : fs.readFile (filePath ++ e) with
      | none => simp only [hr]; exact ih st h
      | some content =>
        simp only [hr]
        exact processImports_pres cfg recLoad (filePath ++ e) P hrec _ _ (hadd _ _ _ hr h)
    · exact ih st h

theorem loadSourceFileF_pres (fs : FS) (cfg : TsPathsConfig) (P : MonacoState → Prop)
    (hadd : ∀ p c s, fs.readFile p = some c → P s → P (addFileToMonaco p c s)) :
    ∀ (fuel depth : Nat) (filePath : String) (st : MonacoState),
      P st → P (loadSourceFileF fs cfg fuel depth filePath st) := by
  intro fuel
  induction fuel with
  | zero => intro d p st h; simpa only [loadSourceFileF] using h
  | succ n ih =>
    intro d p st h
    simp only [loadSourceFileF]
    split
    · exact h
    · split
      · exact h
      · exact tryCandidates_pres fs cfg _ p P hadd (fun q s hs => ih (d + 1) q s hs)
          extensions st h

theorem loadSourceFile_pres (fs : FS) (cfg : TsPathsConfig) (P : MonacoState → Prop)
    (hadd : ∀ p c s, fs.readFile p = some c → P s → P (addFileToMonaco p c s))
    (filePath : String) (depth : Nat) (st : MonacoState) :
    P st → P (loadSourceFile fs cfg filePath depth st) :=
  loadSourceFileF_pres fs cfg P hadd (6 - depth) depth filePath st

theorem loadDtsEntries_pres (fs : FS) (recurse : String → MonacoState → MonacoState)
    (dirPath : String) (P : MonacoState → Prop)
    (hadd : ∀ p c s, fs.readFile p = some c → strLen c < 500 * 1024 →
      P s → P (addFileToMonaco p c s))
    (hrec : ∀ d s, P s → P (recurse d s)) :
    ∀ (entries : List DirEntry) (st : MonacoState),
      P st → P (loadDtsEntries fs recurse dirPath entries st) := by
  intro entries
  induction entries with
  | nil => intro st h; simpa only [loadDtsEntries] using h
  | cons e rest ih =>
    intro st h
    simp only [loadDtsEntries]
    split
    · exact ih st h
    · split
      · split
        · exact ih st h
        · exact ih _ (hrec _ _ h)
      · split
        · cases hr : fs.readFile
            (if dirPath ≠ ("") then dirPath ++ ("/") ++ e.name else e.name) with
          | none => simp only [hr]; exact ih st h
          | some content =>
            simp only [hr]
            split
            next hsize => exact ih _ (hadd _ _ _ hr hsize h)
            next hsize => exact ih st h
        · exact ih st h

theorem loadDtsFromDirF_pres (fs : FS) (maxDepth : Nat) (P : MonacoState → Prop)
    (hadd : ∀ p c s, fs.readFile p = some c → strLen c < 500 * 1024 →
      P s → P (addFileToMonaco p c s)) :
    ∀ (fuel currentDepth : Nat) (dirPath : String) (st : MonacoState),
      P st → P (loadDtsFromDirF fs maxDepth fuel currentDepth dirPath st) := by
  intro fuel
  induction fuel with
  | zero => intro d p st h; simpa only [loadDtsFromDirF] using h
  | succ n ih =>
    intro d p st h
    simp only [loadDtsFromDirF]
    split
    · exact h
    · cases hr : fs.readdir p with
      | none => simp only [hr]; exact h
      | some entries =>
        simp only [hr]
        exact loadDtsEntries_pres fs _ p P hadd (fun q s hs => ih (d + 1) q s hs) entries st h

theorem addFileToMonaco_mem_self (p c : String) (st : MonacoState) :
    p ∈ (addFileToMonaco p c st).loadedFiles :=
  (mem_addFileToMonaco_iff p p c st).mpr (Or.inr rfl)

theorem addFileToMonaco_of_mem (p c : String) (st : MonacoState)
    (h : p ∈ st.loadedFiles) : addFileToMonaco p c st = st := by
  unfold addFileToMonaco
  rw [if_pos h]

theorem uriOf_injective : Function.Injective uriOf := by
  intro a b h
  cases a with
  | mk da =>
    cases b with
    | mk db =>
      have hd : ("file:///").data ++ da = ("file:///").data ++ db := congrArg String.data h
      exact congrArg String.mk (List.append_cancel_left hd)

theorem engineInv_addFile (p c : String) (st : MonacoState)
    (h : EngineInv st) : EngineInv (addFileToMonaco p c st) := by
  obtain ⟨hnd, hts, hjs⟩ := h
  unfold addFileToMonaco
  split
  next => exact ⟨hnd, hts, hjs⟩
  next hmem =>
    refine ⟨?_, ?_, ?_⟩
    · have h2 : ([p] ++ st.loadedFiles).Nodup := List.nodup_cons.mpr ⟨hmem, hnd⟩
      exact List.nodup_append_comm.mpr h2
    · show (st.tsExtraLibs ++ [(uriOf p, c)]).map Prod.fst
        = (st.loadedFiles ++ [p]).map uriOf
      simp [hts]
    · show (st.jsExtraLibs ++ [(uriOf p, c)]).map Prod.fst
        = (st.loadedFiles ++ [p]).map uriOf
      simp [hjs]

theorem engineInv_count (st : MonacoState) (h : EngineInv st) (p : String)
    (hp : p ∈ st.loadedFiles) :
    (st.tsExtraLibs.map Prod.fst).count (uriOf p) = 1
    ∧ (st.jsExtraLibs.map Prod.fst).count (uriOf p) = 1 := by
  obtain ⟨hnd, hts, hjs⟩ := h
  rw [hts, hjs, List.count_map_of_injective _ uriOf uriOf_injective]
  exact ⟨List.count_eq_one_of_mem hnd hp, List.count_eq_one_of_mem hnd hp⟩

theorem normalizeStep_no_dots (acc : List String) (part : String)
    (h1 : ("..") ∉ acc) (h2 : (".") ∉ acc) :
    ("..") ∉ normalizeStep acc part ∧ (".") ∉ normalizeStep acc part := by
  unfold normalizeStep
  split
  next hp =>
    exact ⟨fun hm => h1 (List.dropLast_subset _ hm), fun hm => h2 (List.dropLast_subset _ hm)⟩
  next hp =>
    split
    next hq => exact ⟨h1, h2⟩
    next hq =>
      constructor
      · intro hm
        rcases List.mem_append.mp hm with hL | hR
        · exact h1 hL
        · exact hp (List.mem_singleton.mp hR).symm
      · intro hm
        rcases List.mem_append.mp hm with hL | hR
        · exact h2 hL
        · exact hq (List.mem_singleton.mp hR).symm

theorem normalizeSegs_no_dots (parts : List String) :
    ∀ (acc : List String), ("..") ∉ acc → (".") ∉ acc →
      ("..") ∉ parts.foldl normalizeStep acc ∧ (".") ∉ parts.foldl normalizeStep acc := by
  induction parts with
  | nil => intro acc h1 h2; exact ⟨h1, h2⟩
  | cons part rest ih =>
    intro acc h1 h2
    have h := normalizeStep_no_dots acc part h1 h2
    simpa only [List.foldl_cons] using ih (normalizeStep acc part) h.1 h.2

/-! ## Claim theorems -/

/-- C10: relative-import path normalization is total (a total Lean function on
all strings), processes segments on a stack where `..` pops — a no-op on an
empty stack — and `.` is dropped, so its output never contains a `..` or `.`
segment: excess parent-directory segments are silently discarded rather than
failing or escaping above the root, as the concrete inputs with more `..`
segments than preceding segments illustrate. -/
theorem c10_normalization_total_and_clamped :
    (∀ s : String, ("..") ∉ normalizeSegs s ∧ (".") ∉ normalizeSegs s ∧
        normalizePath s = jsJoin ("/") (normalizeSegs s))
    ∧ normalizePath ("../../a") = ("a")
    ∧ normalizePath ("../../../x/../y") = ("y") := by
  refine ⟨fun s => ?_, by decide, by decide⟩
  have h := normalizeSegs_no_dots (jsSplit slashChar s) [] (by simp) (by simp)
  exact ⟨h.1, h.2, rfl⟩

/-- C2: `addFileToMonaco` (the `register` operation) is idempotent — a second
registration of the same path, with any content, leaves the whole session
state unchanged — and under the session invariant the engine-feeding
`addExtraLib(content, file:///p)` side effect on each defaults object has
happened exactly once for a registered path, never twice for the same uri. -/
theorem c2_register_idempotent_engine_once (p c c2 : String) (st : MonacoState) :
    addFileToMonaco p c2 (addFileToMonaco p c st) = addFileToMonaco p c st
    ∧ (EngineInv st →
        ((addFileToMonaco p c st).tsExtraLibs.map Prod.fst).count (uriOf p) = 1
        ∧ ((addFileToMonaco p c st).jsExtraLibs.map Prod.fst).count (uriOf p) = 1
        ∧ EngineInv (addFileToMonaco p c st)) := by
  constructor
  · exact addFileToMonaco_of_mem p c2 _ (addFileToMonaco_mem_self p c st)
  · intro hInv
    have hInv2 := engineInv_addFile p c st hInv
    have hcounts := engineInv_count _ hInv2 p (addFileToMonaco_mem_self p c st)
    exact ⟨hcounts.1, hcounts.2, hInv2⟩

/-- Witness for C2 at a concrete path and session. -/
theorem c2_witness :
    addFileToMonaco ("src/a.ts") ("y") (addFileToMonaco ("src/a.ts") ("x") emptyState)
      = addFileToMonaco ("src/a.ts") ("x") emptyState
    ∧ ((addFileToMonaco ("src/a.ts") ("x") emptyState).tsExtraLibs.map Prod.fst).count
        (uriOf ("src/a.ts")) = 1 := by
  have h := c2_register_idempotent_engine_once ("src/a.ts") ("x") ("y") emptyState
  exact ⟨h.1, (h.2 ⟨List.nodup_nil, rfl, rfl⟩).1⟩

theorem resolvePathAliasAux_first (base importPath captured t pat : String)
    (ts : List String) :
    ∀ (pre post : List (String × List String)),
      (∀ q ∈ pre, matchAliasPattern q.1 importPath = none) →
      matchAliasPattern pat importPath = some captured →
      resolvePathAliasAux base (pre ++ (pat, t :: ts) :: post) importPath
        = some (stripDotSlash
            (if base ≠ ("") then base ++ ("/") ++ replaceFirstStar t captured
             else replaceFirstStar t captured)) := by
  intro pre
  induction pre with
  | nil =>
    intro post _ hmatch
    simp only [List.nil_append, resolvePathAliasAux, hmatch]
  | cons q rest ih =>
    intro post hpre hmatch
    have hq := hpre q (List.mem_cons_self q rest)
    simp only [List.cons_append, resolvePathAliasAux, hq]
    exact ih post (fun r hr => hpre r (List.mem_cons_of_mem q hr)) hmatch

/-- C6: alias resolution walks the alias table in declaration order; the first
pattern that matches the specifier short-circuits, the result is computed from
that pattern's target list, and patterns declared later (`post`) never
influence the result — which involves no filesystem access at all. -/
theorem c6_first_matching_pattern_wins
    (pre post : List (String × List String)) (pat t : String) (ts : List String)
    (base importPath captured : String)
    (hpre : ∀ q ∈ pre, matchAliasPattern q.1 importPath = none)
    (hmatch : matchAliasPattern pat importPath = some captured) :
    resolvePathAlias { paths := pre ++ (pat, t :: ts) :: post, baseUrl := base } importPath
      = some (stripDotSlash
          (if base ≠ ("") then base ++ ("/") ++ replaceFirstStar t captured
           else replaceFirstStar t captured)) :=
  resolvePathAliasAux_first base importPath captured t pat ts pre post hpre hmatch

/-- Witness for C6: with the duplicate-prefix table
`[("@/*", ["src/*"]), ("@/*", ["lib/*"])]` the first declared pattern wins. -/
theorem c6_witness :
    resolvePathAlias
        { paths := [(("@/*"), [("src/*")]), (("@/*"), [("lib/*")])], baseUrl := (".") }
        ("@/x")
      = some ("src/x") := by
  have h := c6_first_matching_pattern_wins [] [(("@/*"), [("lib/*")])] ("@/*") ("src/*") []
    (".") ("@/x") ("x") (by simp) (by decide)
  exact h.trans (by decide)

/-- C7 counterexample: with alias table `{"@/*": ["src/*", "lib/*"]}` and a
filesystem on which only `lib/x` exists, the resolver still returns `src/x`
(the first target), not the first target whose resolution exists on disk. -/
theorem c7_counterexample :
    resolvePathAlias { paths := [(("@/*"), [("src/*"), ("lib/*")])], baseUrl := (".") } ("@/x")
      = some ("src/x")
    ∧ fsLibOnly.fsExists ("src/x") = false
    ∧ fsLibOnly.fsExists ("lib/x") = true
    ∧ (("src/x") : String) ≠ ("lib/x") := by decide

/-- C7 (amended): within a matched alias pattern, the first target template
wins unconditionally — the resolver substitutes the first template, joins the
base path and returns, consulting neither the remaining templates (`ts`) nor
the filesystem. -/
theorem c7_first_target_unconditional (pat importPath captured base t : String)
    (ts : List String) (rest : List (String × List String))
    (hmatch : matchAliasPattern pat importPath = some captured) :
    resolvePathAlias { paths := (pat, t :: ts) :: rest, baseUrl := base } importPath
      = some (stripDotSlash
          (if base ≠ ("") then base ++ ("/") ++ replaceFirstStar t captured
           else replaceFirstStar t captured)) := by
  show resolvePathAliasAux base ((pat, t :: ts) :: rest) importPath = _
  simp only [resolvePathAliasAux, hmatch]

/-- Witness for C7 (amended) at the counterexample's table. -/
theorem c7_witness :
    resolvePathAlias { paths := [(("@/*"), [("src/*"), ("lib/*")])], baseUrl := (".") } ("@/y")
      = some ("src/y") := by
  have h := c7_first_target_unconditional ("@/*") ("@/y") ("y") (".") ("src/*")
    [("lib/*")] [] (by decide)
  exact h.trans (by decide)

/-- C4 counterexample: on a file consisting of a `require("mod1")` call and a
dynamic `import("mod2")` call, the extraction returns no specifiers at all, so
the specifiers of require and dynamic-import occurrences are not among the
extracted specifiers, contrary to the claim. -/
theorem c4_counterexample :
    extractImports dynamicText = []
    ∧ ("mod1") ∉ extractImports dynamicText
    ∧ ("mod2") ∉ extractImports dynamicText := by decide

/-- C4 (amended): the extraction matches static import / export (including
re-export) declarations with quoted specifiers — default, namespace, named and
side-effect forms — but the specifiers of dynamic `import(...)` calls and
`require(...)` calls in the text are not extracted. -/
theorem c4_static_forms_only :
    extractImports staticText = [("a"), ("d")]
    ∧ ("a") ∈ extractImports staticText
    ∧ ("d") ∈ extractImports staticText
    ∧ ("dyn") ∉ extractImports staticText
    ∧ ("req") ∉ extractImports staticText := by decide

/-- C5 counterexample: loading `src/a.ts`, whose only import is the external
specifier `lodash`, extracts that specifier but routes nothing to the package
type loader (`packageTypeRequests` stays empty), although invoking the loader
itself does record its argument — so external specifiers are *not* routed to
the eager package-type loader. -/
theorem c5_counterexample :
    ("lodash") ∈ extractImports ("import x from \"lodash\"")
    ∧ jsStartsWith ("lodash") (".") = false
    ∧ jsStartsWith ("lodash") ("@/") = false
    ∧ jsStartsWith ("lodash") ("~/") = false
    ∧ (loadSourceFile fsExternal cfgDefault ("src/a.ts") 0 emptyState).packageTypeRequests = []
    ∧ (loadPackageTypes fsExternal ("lodash") emptyState).packageTypeRequests = [("lodash")]
    := by decide

/-- C5 (amended): specifiers beginning with a relative marker or a recognized
alias marker are resolved within the recursive loader and are never routed to
the package-type loader; every other (external) specifier is skipped entirely
by the recursive loader — `loadSourceFile` never invokes the package-type
loader for any specifier (package types are loaded eagerly and independently
at session start). -/
theorem c5_external_specifiers_skipped :
    (∀ (fs : FS) (cfg : TsPathsConfig) (filePath : String) (depth : Nat) (st : MonacoState),
        (loadSourceFile fs cfg filePath depth st).packageTypeRequests
          = st.packageTypeRequests)
    ∧ (∀ (cfg : TsPathsConfig) (recLoad : String → MonacoState → MonacoState)
          (fullPath imp : String) (rest : List String) (st : MonacoState),
        jsStartsWith imp (".") = false → jsStartsWith imp ("@/") = false →
        jsStartsWith imp ("~/") = false →
        processImports cfg recLoad fullPath (imp :: rest) st
          = processImports cfg recLoad fullPath rest st) := by
  constructor
  · intro fs cfg filePath depth st
    exact loadSourceFile_pres fs cfg
      (fun s => s.packageTypeRequests = st.packageTypeRequests)
      (fun p c s _ hP => (addFileToMonaco_packageTypeRequests p c s).trans hP)
      filePath depth st rfl
  · intro cfg recLoad fullPath imp rest st h1 h2 h3
    simp [processImports, h1, h2, h3]

/-- Witness for C5 (amended) on the concrete external-import project. -/
theorem c5_witness :
    (loadSourceFile fsExternal cfgDefault ("src/a.ts") 0 emptyState).packageTypeRequests
        = emptyState.packageTypeRequests
    ∧ processImports cfgDefault (fun _ s => s) ("src/a.ts") [("lodash")] emptyState
        = processImports cfgDefault (fun _ s => s) ("src/a.ts") [] emptyState :=
  ⟨c5_external_specifiers_skipped.1 fsExternal cfgDefault ("src/a.ts") 0 emptyState,
   c5_external_specifiers_skipped.2 cfgDefault (fun _ s => s) ("src/a.ts") ("lodash") []
     emptyState (by decide) (by decide) (by decide)⟩

/-- C9: when a probed candidate exists but reading it throws, the error is
caught and probing continues with the next candidate in the fixed extension
order; concretely, with `src/p.ts` existing but unreadable and `src/p.tsx`
existing and readable, loading `src/p` registers `src/p.tsx`. -/
theorem c9_read_failure_falls_through :
    (∀ (fs : FS) (cfg : TsPathsConfig) (recLoad : String → MonacoState → MonacoState)
        (filePath ext : String) (rest : List String) (st : MonacoState),
        fs.fsExists (filePath ++ ext) = true → fs.readFile (filePath ++ ext) = none →
        tryCandidates fs cfg recLoad filePath (ext :: rest) st
          = tryCandidates fs cfg recLoad filePath rest st)
    ∧ (loadSourceFile fsFlaky cfgDefault ("src/p") 0 emptyState).loadedFiles
        = [("src/p.tsx")] := by
  constructor
  · intro fs cfg recLoad filePath ext rest st hex hread
    simp [tryCandidates, hex, hread]
  · decide

/-- Witness for C9: the unreadable existing candidate `src/p.ts` is skipped in
favor of the remaining candidates. -/
theorem c9_witness :
    tryCandidates fsFlaky cfgDefault (fun _ s => s) ("src/p") [(".ts"), (".tsx")] emptyState
      = tryCandidates fsFlaky cfgDefault (fun _ s => s) ("src/p") [(".tsx")] emptyState :=
  c9_read_failure_falls_through.1 fsFlaky cfgDefault (fun _ s => s) ("src/p") (".ts")
    [(".tsx")] emptyState (by decide) (by decide)

/-- C1: `loadSourceFile` is a total function of its (fuel-bounded) embedding —
every invocation terminates by the depth guard — and registration is
deduplicated: it preserves no-duplication of the corpus for every filesystem,
configuration, entry point, depth and state, and on the concrete cyclic
project (`src/A.ts` imports `./B`, `src/B.ts` imports `./A`) each of the two
files ends up registered exactly once. -/
theorem c1_cyclic_graph_registered_once :
    (∀ (fs : FS) (cfg : TsPathsConfig) (filePath : String) (depth : Nat) (st : MonacoState),
        st.loadedFiles.Nodup → (loadSourceFile fs cfg filePath depth st).loadedFiles.Nodup)
    ∧ (loadSourceFile fsCycle cfgDefault ("src/A.ts") 0 emptyState).loadedFiles.count
        ("src/A.ts") = 1
    ∧ (loadSourceFile fsCycle cfgDefault ("src/A.ts") 0 emptyState).loadedFiles.count
        ("src/B.ts") = 1 := by
  refine ⟨?_, by decide, by decide⟩
  intro fs cfg filePath depth st h
  exact loadSourceFile_pres fs cfg (fun s => s.loadedFiles.Nodup)
    (fun p c s _ hs => addFileToMonaco_nodup p c s hs) filePath depth st h

/-- Witness for C1 on the concrete cyclic project. -/
theorem c1_witness :
    (loadSourceFile fsCycle cfgDefault ("src/A.ts") 0 emptyState).loadedFiles.Nodup :=
  c1_cyclic_graph_registered_once.1 fsCycle cfgDefault ("src/A.ts") 0 emptyState (by decide)

/-- C3 counterexample: on a chain of seven nested relative imports the loader
registers six files — depths 0 through 5 all pass the `depth > 5` guard — not
the five files the claim's "exactly `bound` files with bound = 5" predicts. -/
theorem c3_counterexample :
    (loadSourceFile fsChain cfgDefault ("src/f0") 0 emptyState).loadedFiles.length = 6
    ∧ (6 : Nat) ≠ 5 := by decide

/-- C3 (amended): a chain longer than the bound registers exactly `bound + 1 =
6` files (the entry point at depth 0 through depth 5), and `load(path, depth)`
has no effect whenever `depth` exceeds the fixed bound 5. -/
theorem c3_bound_plus_one_registered :
    (loadSourceFile fsChain cfgDefault ("src/f0") 0 emptyState).loadedFiles
      = [("src/f0.ts"), ("src/f1.ts"), ("src/f2.ts"), ("src/f3.ts"), ("src/f4.ts"),
         ("src/f5.ts")]
    ∧ (∀ (fs : FS) (cfg : TsPathsConfig) (filePath : String) (depth : Nat) (st : MonacoState),
        depth > 5 → loadSourceFile fs cfg filePath depth st = st) := by
  refine ⟨by decide, ?_⟩
  intro fs cfg filePath depth st h
  unfold loadSourceFile
  have h0 : 6 - depth = 0 := by omega
  rw [h0, loadSourceFileF]

/-- Witness for C3 (amended): a load at depth 6 is a no-op. -/
theorem c3_witness :
    loadSourceFile fsChain cfgDefault ("src/f6") 6 emptyState = emptyState :=
  c3_bound_plus_one_registered.2 fsChain cfgDefault ("src/f6") 6 emptyState (by decide)

theorem loadDtsEntries_registers (fs : FS) (recurse : String → MonacoState → MonacoState)
    (dirPath : String)
    (hrec : ∀ d s q, q ∈ s.loadedFiles → q ∈ (recurse d s).loadedFiles) :
    ∀ (entries : List DirEntry) (st : MonacoState) (e : DirEntry) (c : String),
      e ∈ entries → jsStartsWith e.name (".") = false → e.isDirectory = false →
      jsEndsWith e.name (".d.ts") = true →
      fs.readFile (if dirPath ≠ ("") then dirPath ++ ("/") ++ e.name else e.name) = some c →
      strLen c < 500 * 1024 →
      (if dirPath ≠ ("") then dirPath ++ ("/") ++ e.name else e.name)
        ∈ (loadDtsEntries fs recurse dirPath entries st).loadedFiles := by
  intro entries
  induction entries with
  | nil => intro st e c he; cases he
  | cons e0 rest ih =>
    intro st e c he h1 h2 h3 h4 h5
    rcases List.mem_cons.mp he with rfl | he2
    · simp only [loadDtsEntries, h1, h2, h3, h4, Bool.false_eq_true, if_false, if_pos h5]
      have hmem : (if dirPath ≠ ("") then dirPath ++ ("/") ++ e.name else e.name)
          ∈ (addFileToMonaco (if dirPath ≠ ("") then dirPath ++ ("/") ++ e.name else e.name)
              c st).loadedFiles := addFileToMonaco_mem_self _ c st
      exact loadDtsEntries_pres fs recurse dirPath
        (fun s => (if dirPath ≠ ("") then dirPath ++ ("/") ++ e.name else e.name)
          ∈ s.loadedFiles)
        (fun p2 c2 s _ _ hs => (mem_addFileToMonaco_iff _ p2 c2 s).mpr (Or.inl hs))
        (fun d s hs => hrec d s _ hs) rest _ hmem
    · simp only [loadDtsEntries]
      split
      · exact ih st e c he2 h1 h2 h3 h4 h5
      · split
        · split
          · exact ih st e c he2 h1 h2 h3 h4 h5
          · exact ih _ e c he2 h1 h2 h3 h4 h5
        · split
          · cases hr : fs.readFile
              (if dirPath ≠ ("") then dirPath ++ ("/") ++ e0.name else e0.name) with
            | none => simp only [hr]; exact ih st e c he2 h1 h2 h3 h4 h5
            | some content =>
              simp only [hr]
              split
              · exact ih _ e c he2 h1 h2 h3 h4 h5
              · exact ih st e c he2 h1 h2 h3 h4 h5
          · exact ih st e c he2 h1 h2 h3 h4 h5

/-- C8: the crawler's size filter.  First conjunct: any path registered during
a crawl that was not already registered has readable content strictly below
the `500 * 1024` threshold — a declaration file at or above the threshold is
never registered by the crawler.  Second conjunct: a `.d.ts` entry listed in a
crawled directory within the depth bound, non-hidden, non-directory, whose
content reads successfully with size strictly below the threshold, is
registered. -/
theorem c8_size_filter :
    (∀ (fs : FS) (dirPath : String) (maxDepth currentDepth : Nat) (st : MonacoState)
        (p : String),
        p ∈ (loadDtsFromDir fs dirPath maxDepth currentDepth st).loadedFiles →
        p ∈ st.loadedFiles ∨ ∃ c, fs.readFile p = some c ∧ strLen c < 500 * 1024)
    ∧ (∀ (fs : FS) (dirPath : String) (maxDepth currentDepth : Nat) (st : MonacoState)
          (entries : List DirEntry) (e : DirEntry) (c : String),
        currentDepth ≤ maxDepth → fs.readdir dirPath = some entries → e ∈ entries →
        jsStartsWith e.name (".") = false → e.isDirectory = false →
        jsEndsWith e.name (".d.ts") = true →
        fs.readFile (if dirPath ≠ ("") then dirPath ++ ("/") ++ e.name else e.name)
          = some c →
        strLen c < 500 * 1024 →
        (if dirPath ≠ ("") then dirPath ++ ("/") ++ e.name else e.name)
          ∈ (loadDtsFromDir fs dirPath maxDepth currentDepth st).loadedFiles) := by
  constructor
  · intro fs dirPath maxDepth currentDepth st p hp
    exact loadDtsFromDirF_pres fs maxDepth
      (fun s => ∀ q, q ∈ s.loadedFiles →
        q ∈ st.loadedFiles ∨ ∃ c, fs.readFile q = some c ∧ strLen c < 500 * 1024)
      (fun p2 c2 s hr hsize hP q hq => by
        rcases (mem_addFileToMonaco_iff q p2 c2 s).mp hq with hq2 | rfl
        · exact hP q hq2
        · exact Or.inr ⟨c2, hr, hsize⟩)
      (maxDepth + 1 - currentDepth) currentDepth dirPath st (fun q hq => Or.inl hq) p hp
  · intro fs dirPath maxDepth currentDepth st entries e c hle hdir he h1 h2 h3 h4 h5
    unfold loadDtsFromDir
    have hfuel : maxDepth + 1 - currentDepth = (maxDepth - currentDepth) + 1 := by omega
    rw [hfuel, loadDtsFromDirF]
    rw [if_neg (by omega), hdir]
    have hmono : ∀ d s q, q ∈ s.loadedFiles →
        q ∈ (loadDtsFromDirF fs maxDepth (maxDepth - currentDepth) (currentDepth + 1) d
          s).loadedFiles :=
      fun d s q hq => loadDtsFromDirF_pres fs maxDepth (fun s2 => q ∈ s2.loadedFiles)
        (fun p2 c2 s2 _ _ hs => (mem_addFileToMonaco_iff q p2 c2 s2).mpr (Or.inl hs))
        (maxDepth - currentDepth) (currentDepth + 1) d s hq
    exact loadDtsEntries_registers fs _ dirPath hmono entries st e c he h1 h2 h3 h4 h5

/-- Witness for C8: the oversized direction at a small crawled project, and a
declaration file exactly one byte below the threshold being registered. -/
theorem c8_witness :
    (("d/b.d.ts") ∈ emptyState.loadedFiles
      ∨ ∃ c, fsDtsSmall.readFile ("d/b.d.ts") = some c ∧ strLen c < 500 * 1024)
    ∧ ("types/a.d.ts") ∈ (loadDtsFromDir fsDts ("types") 5 0 emptyState).loadedFiles := by
  constructor
  · exact c8_size_filter.1 fsDtsSmall ("d") 5 0 emptyState ("d/b.d.ts") (by decide)
  · have hsize : strLen underSizedDts < 500 * 1024 := by
      show (String.mk (List.replicate (500 * 1024 - 1) ('x'))).data.length < 500 * 1024
      rw [show (String.mk (List.replicate (500 * 1024 - 1) ('x'))).data
          = List.replicate (500 * 1024 - 1) ('x') from rfl, List.length_replicate]
      omega
    have h := c8_size_filter.2 fsDts ("types") 5 0 emptyState
      [{ name := ("a.d.ts"), isDirectory := false }]
      { name := ("a.d.ts"), isDirectory := false } underSizedDts
      (by decide) rfl (List.mem_singleton.mpr rfl) (by decide) rfl (by decide) rfl hsize
    simpa using h
